import Mathlib

/-!
Shallow embedding of `openbr/plugins/validate.cpp`: the cross-validation
training harness (`CrossValidateTransform`) and the metadata gating
comparators (`FilterDistance`, `MetadataDistance`).

Machine integers are embedded as `Int`/`Nat` (no overflow is reachable in the
modelled paths); Qt undefined behavior (out-of-range `QList` access,
`first()` on an empty list) is embedded as `Option.none`; the floating-point
scores of the comparators, which are always either `0` or the
`-FLT_MAX` sentinel, are embedded as the two-valued type `Score`.
-/

namespace Validate

/-- Attribute values a record's metadata map can hold (spec §3: string,
integer, or 2D point/range). -/
inductive AttrValue where
  | str (s : String)
  | int (n : Int)
  | point (x y : Int)
deriving DecidableEq, Repr

/-- A record's metadata (`br::File`): a mapping of named attributes. -/
structure File where
  attrs : List (String × AttrValue)
deriving DecidableEq, Repr

/-- A training/evaluation record (`br::Template`); only its metadata is
relevant to the modelled code. -/
structure Template where
  file : File
deriving DecidableEq, Repr

def dummyTemplate : Template := ⟨⟨[]⟩⟩

def File.lookup (f : File) (key : String) : Option AttrValue :=
  (f.attrs.find? (fun p => p.1 == key)).map (fun p => p.2)

/-- Modelled from the spec: record attribute access `get(Record, key, default)`
(§6), string-typed (`File::get<QString>`); an absent or differently-typed
attribute yields the default. -/
def File.getString (f : File) (key dflt : String) : String :=
  match f.lookup key with
  | some (.str s) => s
  | _ => dflt

/-- Modelled from the spec: record attribute access `get(Record, key, default)`
(§6), integer-typed (`File::get<int>`). -/
def File.getInt (f : File) (key : String) (dflt : Int) : Int :=
  match f.lookup key with
  | some (.int n) => n
  | _ => dflt

/-- Modelled from the spec: record attribute access `get(Record, key, default)`
(§6), 2D-point-typed (`File::get<QPointF>` with default `QPointF()`,
i.e. `(0,0)`). -/
def File.getPoint (f : File) (key : String) : Int × Int :=
  match f.lookup key with
  | some (.point x y) => (x, y)
  | _ => (0, 0)

/-- The external trainable model (`br::Transform`), modelled from the spec
(§6): `create(name)` yields a fresh handle, `train(handle, dataset)` records
the training data.  A model is determined by its description and the dataset
it was last trained on. -/
inductive Model where
  | fresh (description : String)
  | trained (description : String) (data : List Template)
deriving DecidableEq, Repr

def dummyModel : Model := .fresh ""

def Model.description : Model → String
  | .fresh d => d
  | .trained d _ => d

/-- Modelled from the spec: the external trainer `train(ModelHandle, Dataset)`
(§6); training replaces the model's state with one trained on `data`. -/
def Model.train (m : Model) (data : List Template) : Model :=
  .trained m.description data

/-- Modelled from the spec: the external model factory `create(name)`
(§6); `make(description)` in the source. -/
def Model.make (description : String) : Model := .fresh description

/-- The `CrossValidateTransform` object state: its `description` and
`leaveOneOut` properties and the grown list of per-partition models
(`QList<br::Transform*> transforms`). -/
structure CrossValidate where
  description : String
  leaveOneOut : Bool
  transforms : List Model
deriving DecidableEq, Repr

/-- `numPartitions` as computed by `CrossValidateTransform::train`:
`numPartitions = std::max(numPartitions, partitions.last()+1)` over the
dataset, starting from 0. -/
def numPartitions (data : List Template) : Nat :=
  data.foldl (fun acc t => max acc (t.file.getInt "Partition" 0 + 1).toNat) 0

/-- The growth loop `while (transforms.size() < numPartitions)
transforms.append(make(description));`. -/
def grow (description : String) (ts : List Model) (n : Nat) : List Model :=
  ts ++ List.replicate (n - ts.length) (Model.make description)

/-- Modelled from the spec: `find(Dataset, key, value) -> ordered sequence of
matching positions` (§6), i.e. `TemplateList::find`, matching on the
string-typed attribute `key`. -/
def TemplateList.find (data : List Template) (key value : String) : List Nat :=
  (List.range data.length).filter
    (fun j => (data.getD j dummyTemplate).file.getString key "" == value)

/-- `partitionedData.find("Subject", partitionedData.at(j).file.get<QString>("Subject"))`:
the positions of all records sharing record `j`'s "Subject" value. -/
def subjectPositions (data : List Template) (j : Nat) : List Nat :=
  TemplateList.find data "Subject"
    ((data.getD j dummyTemplate).file.getString "Subject" "")

/-- The exclusion positions collected by the `for (int j=...size()-1; j>=0; j--)`
scan in leave-one-out mode: for each `j` (descending), if
`i > subjectIndices.size()` then `subjectIndices[i % subjectIndices.size()]`
is appended.  (`subjectIndices` is nonempty because record `j` matches its
own subject, so the modulo index is always in range; the `getD` default 0 is
never used.) -/
def looRemoved (data : List Template) (i : Nat) : List Nat :=
  ((List.range data.length).reverse).filterMap (fun j =>
    if i > (subjectPositions data j).length
    then some ((subjectPositions data j).getD (i % (subjectPositions data j).length) 0)
    else none)

/-- The exclusion positions collected by the same scan in the default mode:
each `j` (descending) with `partitions[j] == i`. -/
def nonLooRemoved (data : List Template) (i : Nat) : List Nat :=
  ((List.range data.length).reverse).filter
    (fun j => (data.getD j dummyTemplate).file.getInt "Partition" 0 == (i : Int))

/-- Modelled from the spec: `Common::Sort(removed, true)` — the collected
positions "sorted by position descending and deduplicated" (§4.3); the source
pairs each position with a rank, of which only the position (`pair.first`)
is consumed by the removal loop. -/
def sortDescDedup (l : List Nat) : List Nat :=
  (l.dedup).insertionSort (fun a b => a ≥ b)

/-- The removal loop
`foreach (const Pair &pair, Common::Sort(removed,true)) partitionedData.removeAt(pair.first);`. -/
def applyRemovals (data : List Template) (removed : List Nat) : List Template :=
  (sortDescDedup removed).foldl (fun acc idx => acc.eraseIdx idx) data

/-- The training set handed to model `i`: the full dataset copy with the
collected exclusion positions removed. -/
def trainedDataFor (leaveOneOut : Bool) (data : List Template) (i : Nat) : List Template :=
  applyRemovals data (if leaveOneOut then looRemoved data i else nonLooRemoved data i)

/-- `CrossValidateTransform::train`.  Returns `none` where the source has
undefined behavior: `transforms.first()` on an empty list (reachable when
`numPartitions = 0` and no model pre-exists).  For `numPartitions ≥ 2` the
per-partition jobs are independent and each writes only its own slot, so the
concurrent fan-out is embedded as a per-index map. -/
def CrossValidate.train (cv : CrossValidate) (data : List Template) : Option CrossValidate :=
  let n := numPartitions data
  let ts := grow cv.description cv.transforms n
  if n < 2 then
    match ts with
    | [] => none
    | t :: rest => some { cv with transforms := t.train data :: rest }
  else
    some { cv with transforms :=
      (List.range ts.length).map (fun i =>
        if i < n then (ts.getD i dummyModel).train (trainedDataFor cv.leaveOneOut data i)
        else ts.getD i dummyModel) }

/-- `CrossValidateTransform::project`, parameterized by the external model's
own projection `mp` (spec §6).  `transforms[idx]` with an out-of-range index
is undefined behavior in the source (`QList::operator[]`), embedded as
`none`; a failing call only produces a result, it never touches the
ensemble. -/
def CrossValidate.project (mp : Model → Template → Template) (cv : CrossValidate)
    (src : Template) : Option Template :=
  let idx := src.file.getInt "Partition" 0
  if 0 ≤ idx ∧ idx.toNat < cv.transforms.length then
    some (mp (cv.transforms.getD idx.toNat dummyModel) src)
  else none

/-- One item of the serialized stream: the leading model count
(`stream << transforms.size()`) or one unit of a model's own serialized
form. -/
inductive WireItem (B : Type) where
  | count (n : Nat)
  | byte (b : B)
deriving DecidableEq

/-- `CrossValidateTransform::store`, parameterized by the external model's
own serialization `mstore` (spec §6): the model count followed by each
model's serialized form in partition order. -/
def CrossValidate.store {B : Type} (mstore : Model → List B) (cv : CrossValidate) :
    List (WireItem B) :=
  WireItem.count cv.transforms.length ::
    (cv.transforms.map (fun m => (mstore m).map WireItem.byte)).flatten

/-- The `foreach (Transform *transform, transforms) transform->load(stream);`
loop: each model deserializes in turn from the remaining stream. -/
def loadModels {B : Type}
    (mload : Model → List (WireItem B) → Option (Model × List (WireItem B))) :
    List Model → List (WireItem B) → Option (List Model × List (WireItem B))
  | [], s => some ([], s)
  | m :: ms, s =>
    match mload m s with
    | some (m', s') =>
      match loadModels mload ms s' with
      | some (ms', s'') => some (m' :: ms', s'')
      | none => none
    | none => none

/-- `CrossValidateTransform::load`, parameterized by the external model's own
deserialization `mload` (spec §6): read the count, grow the ensemble via the
factory, then delegate to each model's own deserialization.  A stream not
starting with a count is a `SerializationError` (spec §7), embedded as
`none`. -/
def CrossValidate.load {B : Type}
    (mload : Model → List (WireItem B) → Option (Model × List (WireItem B)))
    (cv : CrossValidate) (stream : List (WireItem B)) :
    Option (CrossValidate × List (WireItem B)) :=
  match stream with
  | WireItem.count n :: rest =>
    match loadModels mload (grow cv.description cv.transforms n) rest with
    | some (ms, rest') => some ({ cv with transforms := ms }, rest')
    | none => none
  | _ => none

/-- The comparator outcome: the code returns either `0` ("accept") or the
`-std::numeric_limits<float>::max()` sentinel ("reject"), never any other
value. -/
inductive Score where
  | accept
  | reject
deriving DecidableEq, Repr

/-- `FilterDistance::compare`: each configured filter key with a non-empty
allowed-value set must have the first record's value non-empty and a member
of the set; the second record is never read. -/
def FilterDistance.compare (filters : List (String × List String))
    (a b : Template) : Score :=
  match filters with
  | [] => Score.accept
  | (key, allowed) :: rest =>
    let metadata := a.file.getString key ""
    if allowed.isEmpty then FilterDistance.compare rest a b
    else if metadata.isEmpty then Score.reject
    else if allowed.contains metadata then FilterDistance.compare rest a b
    else Score.reject

/-- Modelled from the spec: `QtUtils::toString(QPointF)` — renders a 2D point
as the string `(x,y)`. -/
def QtUtils.pointToString (p : Int × Int) : String :=
  "(" ++ toString p.1 ++ "," ++ toString p.2 ++ ")"

/-- Characters strictly before the first comma, paired with the rest. -/
def splitComma : List Char → Option (List Char × List Char)
  | [] => none
  | c :: rest =>
    if c = ',' then some ([], rest)
    else (splitComma rest).map (fun p => (c :: p.1, p.2))

/-- Characters strictly before a final closing parenthesis (which must be the
last character). -/
def splitParen : List Char → Option (List Char)
  | [] => none
  | [c] => if c = ')' then some [] else none
  | c :: rest => (splitParen rest).map (fun p => c :: p)

/-- Value of a nonempty string of decimal digits. -/
def digitsVal (cs : List Char) : Option Nat :=
  if cs.isEmpty then none
  else if cs.all Char.isDigit then
    some (cs.foldl (fun acc c => acc * 10 + (c.toNat - 48)) 0)
  else none

/-- An optional leading minus sign followed by decimal digits. -/
def parseIntChars : List Char → Option Int
  | [] => none
  | c :: rest =>
    if c = '-' then (digitsVal rest).map (fun n => -(n : Int))
    else (digitsVal (c :: rest)).map (fun n => (n : Int))

/-- Modelled from the spec: `QtUtils::toPoint(QString, bool *ok)` — parses a
string of the form `(x,y)` as an inclusive integer range endpoint pair (§4.5);
`none` plays the role of `ok == false`. -/
def QtUtils.toPoint (s : String) : Option (Int × Int) :=
  match s.toList with
  | c :: rest =>
    if c = '(' then
      match splitComma rest with
      | some (xs, rest2) =>
        match splitParen rest2 with
        | some ys =>
          match parseIntChars xs, parseIntChars ys with
          | some x, some y => some (x, y)
          | _, _ => none
        | none => none
      | none => none
    else none
  | [] => none

/-- The range-membership loop of `MetadataDistance::compare`:
`int value = range.x(); while (value <= upperBound) { if (aValue ==
QString::number(value)) { keep = true; break; } value++; }`. -/
def rangeHit (aValue : String) (x y : Int) : Bool :=
  (List.range (y - x + 1).toNat).any (fun k => aValue == toString (x + (k : Int)))

/-- `MetadataDistance::compare`: for each configured key, the target value is
checked against the query value, where an empty query string value falls back
to the rendered 2D-point attribute; a value parsing as a range is checked by
integer membership, otherwise by string equality; empty values on either
side skip the key. -/
def MetadataDistance.compare (filters : List String) (a b : Template) : Score :=
  match filters with
  | [] => Score.accept
  | key :: rest =>
    let aValue := a.file.getString key ""
    let bValue0 := b.file.getString key ""
    let bValue := if bValue0.isEmpty then QtUtils.pointToString (b.file.getPoint key)
                  else bValue0
    if aValue.isEmpty || bValue.isEmpty then MetadataDistance.compare rest a b
    else
      let keep : Bool :=
        match QtUtils.toPoint bValue with
        | some xy => rangeHit aValue xy.1 xy.2
        | none => aValue == bValue
      if keep then MetadataDistance.compare rest a b else Score.reject

/-- Spec-side characterization of position removal: keep exactly the elements
whose position is not in `rem`, scanning with a running position predicate. -/
def keepP {α : Type} (P : Nat → Bool) : List α → List α
  | [] => []
  | a :: tl =>
    if P 0 then a :: keepP (fun k => P (k + 1)) tl
    else keepP (fun k => P (k + 1)) tl

/-- Spec-side characterization: the records surviving removal of the distinct
positions listed in `rem`. -/
def keepNot {α : Type} (rem : List Nat) (l : List α) : List α :=
  keepP (fun j => decide (j ∉ rem)) l

/-- The effective query-side value of `MetadataDistance::compare` for a key:
the string attribute, or, when that is empty, the rendered 2D-point
attribute. -/
def queryValue (b : Template) (key : String) : String :=
  if (b.file.getString key "").isEmpty then QtUtils.pointToString (b.file.getPoint key)
  else b.file.getString key ""

/-- Spec-side reading of one key of the metadata-match comparator: the key is
skipped when either side is empty; a query value parsing as a range accepts
exactly the decimal renderings of the integers in the inclusive range;
otherwise exact string equality decides. -/
def metadataKeyPasses (a b : Template) (key : String) : Prop :=
  a.file.getString key "" = "" ∨ queryValue b key = "" ∨
    (match QtUtils.toPoint (queryValue b key) with
     | some xy => ∃ v : Int, xy.1 ≤ v ∧ v ≤ xy.2 ∧ a.file.getString key "" = toString v
     | none => a.file.getString key "" = queryValue b key)

/-- Record with partition 0, subject "a". -/
def tpl0 : Template := ⟨⟨[("Partition", .int 0), ("Subject", .str "a")]⟩⟩

/-- Record with partition 1, subject "b". -/
def tpl1 : Template := ⟨⟨[("Partition", .int 1), ("Subject", .str "b")]⟩⟩

/-- Record with partition 0, subject "c". -/
def tpl2 : Template := ⟨⟨[("Partition", .int 0), ("Subject", .str "c")]⟩⟩

/-- Record with partition 3, subject "d". -/
def tpl3 : Template := ⟨⟨[("Partition", .int 3), ("Subject", .str "d")]⟩⟩

def tGenderM : Template := ⟨⟨[("Gender", .str "M")]⟩⟩

def tGenderF : Template := ⟨⟨[("Gender", .str "F")]⟩⟩

def tNoGender : Template := ⟨⟨[]⟩⟩

/-- Same "Gender" value as `tGenderM`, different other attributes. -/
def tGenderMplus : Template := ⟨⟨[("Gender", .str "M"), ("Site", .str "x")]⟩⟩

def tAge30 : Template := ⟨⟨[("Age", .str "30")]⟩⟩

def tAgeRange20to40 : Template := ⟨⟨[("Age", .point 20 40)]⟩⟩

def tAgeRange41to50 : Template := ⟨⟨[("Age", .point 41 50)]⟩⟩

/-- A concrete external model serializer: one wire item per model. -/
def wireStore (m : Model) : List Model := [m]

/-- A concrete external model deserializer matching `wireStore`: consumes one
byte, ignores the prior model state. -/
def wireLoad (_m : Model) (s : List (WireItem Model)) : Option (Model × List (WireItem Model)) :=
  match s with
  | WireItem.byte b :: rest => some (b, rest)
  | _ => none

/-! Helper facts about the position-removal machinery. -/

theorem keepP_congr {α : Type} : ∀ (l : List α) (P Q : Nat → Bool),
    (∀ k, P k = Q k) → keepP P l = keepP Q l
  | [], _, _, _ => rfl
  | a :: tl, P, Q, h => by
    have ih := keepP_congr tl (fun k => P (k + 1)) (fun k => Q (k + 1)) (fun k => h (k + 1))
    simp only [keepP, h 0, ih]

theorem keepP_true {α : Type} : ∀ (l : List α) (P : Nat → Bool),
    (∀ k, P k = true) → keepP P l = l
  | [], _, _ => rfl
  | a :: tl, P, h => by
    have ih := keepP_true tl (fun k => P (k + 1)) (fun k => h (k + 1))
    simp only [keepP, h 0, ih, if_true]

theorem keepP_eraseIdx {α : Type} : ∀ (l : List α) (q : Nat) (P : Nat → Bool),
    (∀ k, q ≤ k → P k = true) →
    keepP P (l.eraseIdx q) = keepP (fun j => decide (j ≠ q) && P j) l
  | [], q, P, _ => by simp [List.eraseIdx_nil, keepP]
  | a :: tl, 0, P, h => by
    rw [List.eraseIdx_cons_zero, keepP_true tl P (fun k => h k (Nat.zero_le k))]
    have hc : (decide ((0 : Nat) ≠ 0) && P 0) = false := by simp
    simp only [keepP, hc, Bool.false_eq_true, if_false]
    rw [keepP_congr tl _ (fun k => P (k + 1)) (fun k => by simp),
      keepP_true tl _ (fun k => h (k + 1) (Nat.zero_le _))]
  | a :: tl, q + 1, P, h => by
    rw [List.eraseIdx_cons_succ]
    have ih := keepP_eraseIdx tl q (fun k => P (k + 1))
      (fun k hk => h (k + 1) (Nat.succ_le_succ hk))
    have hc : (decide ((0 : Nat) ≠ q + 1) && P 0) = P 0 := by simp
    have ht : ∀ k : Nat, (decide (k ≠ q) && P (k + 1)) = (decide (k + 1 ≠ q + 1) && P (k + 1)) := by
      intro k
      have hd : decide (k ≠ q) = decide (k + 1 ≠ q + 1) := decide_eq_decide.mpr (by simp)
      rw [hd]
    simp only [keepP, hc, ih, keepP_congr tl _ _ ht]

theorem foldl_eraseIdx_keepNot {α : Type} : ∀ (rem : List Nat) (l : List α),
    rem.Pairwise (fun a b => a > b) →
    rem.foldl (fun acc idx => acc.eraseIdx idx) l = keepNot rem l
  | [], l, _ => by
    unfold keepNot
    rw [List.foldl_nil, keepP_true l _ (fun k => by simp)]
  | q :: rest, l, hp => by
    have hgt : ∀ r ∈ rest, q > r := (List.pairwise_cons.mp hp).1
    have hrest := (List.pairwise_cons.mp hp).2
    rw [List.foldl_cons, foldl_eraseIdx_keepNot rest (l.eraseIdx q) hrest]
    unfold keepNot
    rw [keepP_eraseIdx l q _ (fun k hk => by
      have hnm : k ∉ rest := fun hm => absurd (hgt k hm) (by omega)
      simp [hnm])]
    apply keepP_congr
    intro j
    calc (decide (j ≠ q) && decide (j ∉ rest))
        = decide (j ≠ q ∧ j ∉ rest) := (Bool.decide_and _ _).symm
      _ = decide (j ∉ q :: rest) := decide_eq_decide.mpr (by simp [not_or])

theorem keepP_filter {α : Type} (d : α) : ∀ (l : List α) (p : α → Bool) (P : Nat → Bool),
    (∀ j, j < l.length → P j = !(p (l.getD j d))) →
    keepP P l = l.filter (fun x => !(p x))
  | [], _, _, _ => rfl
  | a :: tl, p, P, h => by
    have h0 : P 0 = !(p a) := by simpa using h 0 (by simp)
    have ih := keepP_filter d tl p (fun k => P (k + 1)) (fun j hj => by
      simpa using h (j + 1) (by simpa using Nat.succ_lt_succ hj))
    simp only [keepP, h0, ih, List.filter_cons]

theorem sortDescDedup_pairwise (rem : List Nat) :
    (sortDescDedup rem).Pairwise (fun a b => a > b) := by
  have hs : (sortDescDedup rem).Pairwise (fun a b => a ≥ b) :=
    List.sorted_insertionSort _ _
  have hn : (sortDescDedup rem).Nodup :=
    (List.perm_insertionSort _ _).symm.nodup (List.nodup_dedup rem)
  exact (hs.and hn).imp (fun hab => Nat.lt_of_le_of_ne hab.1 (Ne.symm hab.2))

theorem mem_sortDescDedup {rem : List Nat} {j : Nat} : j ∈ sortDescDedup rem ↔ j ∈ rem :=
  (List.perm_insertionSort _ _).mem_iff.trans List.mem_dedup

theorem applyRemovals_eq_keepNot (data : List Template) (removed : List Nat) :
    applyRemovals data removed = keepNot removed data := by
  unfold applyRemovals
  rw [foldl_eraseIdx_keepNot _ _ (sortDescDedup_pairwise removed)]
  unfold keepNot
  apply keepP_congr
  intro j
  exact decide_eq_decide.mpr (not_congr mem_sortDescDedup)

theorem mem_nonLooRemoved {data : List Template} {i : Nat} {j : Nat} :
    j ∈ nonLooRemoved data i ↔
      j < data.length ∧
        ((data.getD j dummyTemplate).file.getInt "Partition" 0 == (i : Int)) = true := by
  simp [nonLooRemoved, List.mem_filter, List.mem_reverse, List.mem_range]

theorem trainedDataFor_false (data : List Template) (i : Nat) :
    trainedDataFor false data i =
      data.filter (fun t => !(t.file.getInt "Partition" 0 == (i : Int))) := by
  unfold trainedDataFor
  rw [if_neg (by simp), applyRemovals_eq_keepNot]
  unfold keepNot
  apply keepP_filter dummyTemplate
  intro j hj
  have hmem : j ∈ nonLooRemoved data i ↔
      ((data.getD j dummyTemplate).file.getInt "Partition" 0 == (i : Int)) = true := by
    rw [mem_nonLooRemoved]
    simp [hj]
  calc decide (j ∉ nonLooRemoved data i)
      = decide (¬ (((data.getD j dummyTemplate).file.getInt "Partition" 0 == (i : Int)) = true)) :=
        decide_eq_decide.mpr (not_congr hmem)
    _ = !((data.getD j dummyTemplate).file.getInt "Partition" 0 == (i : Int)) := by
        simp [Bool.beq_eq_decide_eq]

theorem grow_length (d : String) (ts : List Model) (n : Nat) :
    (grow d ts n).length = max ts.length n := by
  simp only [grow, List.length_append, List.length_replicate]
  omega

/-- Shared shape of the `numPartitions ≥ 2` branch of `train`: training
succeeds and slot `i` holds the (possibly freshly grown) model `i` trained on
the per-partition filtered copy. -/
theorem train_ge2 (cv : CrossValidate) (data : List Template) (i : Nat)
    (hn : 2 ≤ numPartitions data) (hi : i < numPartitions data) :
    ∃ cv', cv.train data = some cv' ∧
      cv'.transforms.getD i dummyModel =
        Model.train ((grow cv.description cv.transforms (numPartitions data)).getD i dummyModel)
          (trainedDataFor cv.leaveOneOut data i) := by
  unfold CrossValidate.train
  rw [if_neg (by omega)]
  refine ⟨_, rfl, ?_⟩
  have hlen : i < (grow cv.description cv.transforms (numPartitions data)).length := by
    rw [grow_length]; omega
  have hmap : i < ((List.range (grow cv.description cv.transforms (numPartitions data)).length).map
      (fun i => if i < numPartitions data
        then ((grow cv.description cv.transforms (numPartitions data)).getD i dummyModel).train
          (trainedDataFor cv.leaveOneOut data i)
        else (grow cv.description cv.transforms (numPartitions data)).getD i dummyModel)).length := by
    simpa using hlen
  rw [List.getD_eq_getElem?_getD, List.getElem?_eq_getElem hmap]
  simp [hi]

theorem mem_subjectPositions_self {data : List Template} {j : Nat} (hj : j < data.length) :
    j ∈ subjectPositions data j := by
  simp [subjectPositions, TemplateList.find, List.mem_filter, List.mem_range, hj]

theorem subjectPositions_length_pos {data : List Template} {j : Nat} (hj : j < data.length) :
    0 < (subjectPositions data j).length :=
  List.length_pos_of_mem (mem_subjectPositions_self hj)

theorem looRemoved_eq_nil {data : List Template} {i : Nat}
    (h : ∀ j, j < data.length → i ≤ (subjectPositions data j).length) :
    looRemoved data i = [] := by
  unfold looRemoved
  rw [List.filterMap_eq_nil_iff]
  intro j hj
  have hjlen : j < data.length := by
    have := List.mem_reverse.mp hj
    exact List.mem_range.mp this
  rw [if_neg]
  have := h j hjlen
  omega

theorem trainedDataFor_true_of_small {data : List Template} {i : Nat}
    (h : ∀ j, j < data.length → i ≤ (subjectPositions data j).length) :
    trainedDataFor true data i = data := by
  unfold trainedDataFor
  rw [if_pos rfl, looRemoved_eq_nil h, applyRemovals_eq_keepNot]
  unfold keepNot
  exact keepP_true data _ (fun k => by simp)

theorem mem_looRemoved {data : List Template} {i q : Nat} :
    q ∈ looRemoved data i ↔ ∃ j, j < data.length ∧ i > (subjectPositions data j).length ∧
      q = (subjectPositions data j).getD (i % (subjectPositions data j).length) 0 := by
  unfold looRemoved
  rw [List.mem_filterMap]
  constructor
  · rintro ⟨j, hj, hf⟩
    have hjlen : j < data.length := List.mem_range.mp (List.mem_reverse.mp hj)
    by_cases hlt : i > (subjectPositions data j).length
    · rw [if_pos hlt] at hf
      exact ⟨j, hjlen, hlt, (Option.some.inj hf).symm⟩
    · rw [if_neg hlt] at hf
      exact absurd hf (by simp)
  · rintro ⟨j, hjlen, hlt, rfl⟩
    exact ⟨j, by simp [List.mem_reverse, List.mem_range, hjlen], by rw [if_pos hlt]⟩

theorem filterMap_ite_eq {α β : Type} (l : List α) (c : α → Prop) [DecidablePred c] (g : α → β) :
    l.filterMap (fun x => if c x then some (g x) else none) =
      (l.filter (fun x => decide (c x))).map g := by
  induction l with
  | nil => rfl
  | cons a tl ih =>
    by_cases h : c a <;> simp [List.filterMap_cons, List.filter_cons, h, ih]

theorem looRemoved_length (data : List Template) (i : Nat) :
    (looRemoved data i).length =
      ((List.range data.length).filter
        (fun j => decide (i > (subjectPositions data j).length))).length := by
  unfold looRemoved
  rw [filterMap_ite_eq, List.length_map]
  exact ((List.reverse_perm (List.range data.length)).filter _).length_eq

/-! Helper facts about serialization. -/

theorem loadModels_roundtrip {B : Type} (mstore : Model → List B)
    (mload : Model → List (WireItem B) → Option (Model × List (WireItem B)))
    (hround : ∀ m m' rest, mload m' ((mstore m).map WireItem.byte ++ rest) = some (m, rest)) :
    ∀ (e ms : List Model) (rest : List (WireItem B)), ms.length = e.length →
      loadModels mload ms ((e.map (fun m => (mstore m).map WireItem.byte)).flatten ++ rest) =
        some (e, rest)
  | [], [], rest, _ => by simp [loadModels]
  | m :: e, m' :: ms, rest, hlen => by
    have ih := loadModels_roundtrip mstore mload hround e ms rest (by simpa using hlen)
    simp only [List.map_cons, List.flatten_cons, List.append_assoc, loadModels]
    rw [hround m m' _]
    simp only [ih]
  | [], _ :: _, _, h => by simp at h
  | _ :: _, [], _, h => by simp at h

/-! Helper facts about the comparators. -/

theorem score_two_valued (s : Score) : s = Score.accept ∨ s = Score.reject := by
  cases s
  · exact Or.inl rfl
  · exact Or.inr rfl

theorem filterCompare_reject_iff : ∀ (filters : List (String × List String)) (a b : Template),
    FilterDistance.compare filters a b = Score.reject ↔
      ∃ kv ∈ filters, kv.2 ≠ [] ∧
        (a.file.getString kv.1 "" = "" ∨ a.file.getString kv.1 "" ∉ kv.2)
  | [], a, b => by simp [FilterDistance.compare]
  | (key, allowed) :: rest, a, b => by
    have ih := filterCompare_reject_iff rest a b
    simp only [FilterDistance.compare]
    cases hE : allowed.isEmpty with
    | true =>
      have hnil : allowed = [] := List.isEmpty_iff.mp hE
      simp [hnil, ih]
    | false =>
      have hnnil : allowed ≠ [] := by
        intro hc
        rw [hc] at hE
        simp at hE
      cases hM : (a.file.getString key "").isEmpty with
      | true =>
        have hstr : a.file.getString key "" = "" := (String.isEmpty_iff _).mp hM
        simp [hE, hM, hnnil, hstr]
      | false =>
        have hstr : a.file.getString key "" ≠ "" := by
          intro hc
          rw [hc] at hM
          exact absurd hM (by decide)
        cases hC : allowed.contains (a.file.getString key "") with
        | true =>
          have hin : a.file.getString key "" ∈ allowed := by simpa using hC
          simp [hE, hM, hC, ih, hstr, hin]
        | false =>
          have hout : a.file.getString key "" ∉ allowed := by simpa using hC
          simp [hE, hM, hC, hnnil, hstr, hout]

theorem filterCompare_b_irrelevant : ∀ (filters : List (String × List String))
    (a b b' : Template),
    FilterDistance.compare filters a b = FilterDistance.compare filters a b'
  | [], _, _, _ => rfl
  | (key, allowed) :: rest, a, b, b' => by
    simp only [FilterDistance.compare]
    rw [filterCompare_b_irrelevant rest a b b']

theorem filterCompare_a_values : ∀ (filters : List (String × List String))
    (a a' b b' : Template),
    (∀ kv ∈ filters, a.file.getString kv.1 "" = a'.file.getString kv.1 "") →
    FilterDistance.compare filters a b = FilterDistance.compare filters a' b'
  | [], _, _, _, _, _ => rfl
  | (key, allowed) :: rest, a, a', b, b', h => by
    simp only [FilterDistance.compare]
    rw [h (key, allowed) (by simp),
      filterCompare_a_values rest a a' b b' (fun kv hkv => h kv (by simp [hkv]))]

theorem rangeHit_iff {aValue : String} {x y : Int} :
    rangeHit aValue x y = true ↔ ∃ v : Int, x ≤ v ∧ v ≤ y ∧ aValue = toString v := by
  unfold rangeHit
  rw [List.any_eq_true]
  constructor
  · rintro ⟨k, hk, hbeq⟩
    rw [List.mem_range] at hk
    refine ⟨x + (k : Int), by omega, by omega, by simpa using hbeq⟩
  · rintro ⟨v, hxv, hvy, hav⟩
    refine ⟨(v - x).toNat, List.mem_range.mpr (by omega), ?_⟩
    have hv : x + ((v - x).toNat : Int) = v := by omega
    rw [hv]
    simpa using hav

theorem metadataCompare_accept_iff : ∀ (filters : List String) (a b : Template),
    MetadataDistance.compare filters a b = Score.accept ↔
      ∀ key ∈ filters, metadataKeyPasses a b key
  | [], a, b => by simp [MetadataDistance.compare]
  | key :: rest, a, b => by
    have ih := metadataCompare_accept_iff rest a b
    simp only [MetadataDistance.compare]
    rw [List.forall_mem_cons]
    have hbq : (if (b.file.getString key "").isEmpty
        then QtUtils.pointToString (b.file.getPoint key)
        else b.file.getString key "") = queryValue b key := rfl
    rw [hbq]
    cases hA : (a.file.getString key "").isEmpty with
    | true =>
      have hstr : a.file.getString key "" = "" := (String.isEmpty_iff _).mp hA
      have hpass : metadataKeyPasses a b key := Or.inl hstr
      simp [ih, hpass]
    | false =>
      have hstr : a.file.getString key "" ≠ "" := by
        intro hc
        rw [hc] at hA
        exact absurd hA (by decide)
      cases hB : (queryValue b key).isEmpty with
      | true =>
        have hqstr : queryValue b key = "" := (String.isEmpty_iff _).mp hB
        have hpass : metadataKeyPasses a b key := Or.inr (Or.inl hqstr)
        simp [ih, hpass]
      | false =>
        have hqstr : queryValue b key ≠ "" := by
          intro hc
          rw [hc] at hB
          exact absurd hB (by decide)
        simp only [hA, hB, Bool.or_self, Bool.false_or, Bool.false_eq_true, if_false]
        rcases htp : QtUtils.toPoint (queryValue b key) with _ | ⟨x, y⟩
        · cases heq : (a.file.getString key "" == queryValue b key) with
          | true =>
            have hpass : metadataKeyPasses a b key := by
              unfold metadataKeyPasses
              rw [htp]
              exact Or.inr (Or.inr (by simpa using heq))
            simp [heq, ih, hpass]
          | false =>
            have hfail : ¬ metadataKeyPasses a b key := by
              unfold metadataKeyPasses
              rw [htp]
              push_neg
              refine ⟨hstr, hqstr, by simpa using heq⟩
            simp [heq, hfail]
        · cases hr : rangeHit (a.file.getString key "") x y with
          | true =>
            have hpass : metadataKeyPasses a b key := by
              unfold metadataKeyPasses
              rw [htp]
              exact Or.inr (Or.inr (rangeHit_iff.mp hr))
            simp [hr, ih, hpass]
          | false =>
            have hfail : ¬ metadataKeyPasses a b key := by
              unfold metadataKeyPasses
              rw [htp]
              push_neg
              refine ⟨hstr, hqstr, ?_⟩
              intro hex
              rw [← rangeHit_iff] at hex
              rw [hr] at hex
              exact absurd hex (by simp)
            simp [hr, hfail]

/-! The claims. -/

/-- C1: the claim says that for `numPartitions < 2` (including the empty
dataset) `train` constructs a model via the factory if absent, trains it on
the whole dataset, and leaves at least one model.  On the empty dataset with
an empty ensemble the code instead constructs nothing (the growth loop runs
while `size < numPartitions = 0`) and then calls `transforms.first()` on an
empty `QList` — undefined behavior, embedded as `none`. -/
theorem train_empty_dataset_crashes :
    CrossValidate.train ⟨"Identity", false, []⟩ [] = none := rfl

/-- C2: with `numPartitions = N ≥ 2` and `leaveOneOut = false`, training
succeeds and model `i` is trained on exactly the dataset minus the records
whose "Partition" attribute (default 0) equals `i` — i.e. on the records of
all other partitions, in dataset order. -/
theorem train_nonLOO_training_sets (cv : CrossValidate) (data : List Template) (i : Nat)
    (hloo : cv.leaveOneOut = false) (hn : 2 ≤ numPartitions data)
    (hi : i < numPartitions data) :
    ∃ cv', cv.train data = some cv' ∧
      cv'.transforms.getD i dummyModel =
        Model.train ((grow cv.description cv.transforms (numPartitions data)).getD i dummyModel)
          (data.filter (fun t => !(t.file.getInt "Partition" 0 == (i : Int)))) := by
  obtain ⟨cv', h1, h2⟩ := train_ge2 cv data i hn hi
  rw [hloo, trainedDataFor_false] at h2
  exact ⟨cv', h1, h2⟩

/-- C2 witness: three records with partitions 0, 1, 0; model 1 trains on the
two partition-0 records. -/
theorem train_nonLOO_training_sets_witness :
    ∃ cv', CrossValidate.train ⟨"Identity", false, []⟩ [tpl0, tpl1, tpl2] = some cv' ∧
      cv'.transforms.getD 1 dummyModel =
        Model.train ((grow "Identity" [] (numPartitions [tpl0, tpl1, tpl2])).getD 1 dummyModel)
          ([tpl0, tpl1, tpl2].filter (fun t => !(t.file.getInt "Partition" 0 == (1 : Int)))) :=
  train_nonLOO_training_sets ⟨"Identity", false, []⟩ [tpl0, tpl1, tpl2] 1 rfl
    (by decide) (by decide)

/-- C3: in leave-one-out mode, a position enters the exclusion list exactly
when some record position `j` has `i` strictly greater than the size of the
subject group `S` of record `j`, in which case the position is
`S[i mod |S|]`; and one entry is produced per qualifying record of the scan
(the rule is evaluated independently once per record). -/
theorem leaveOneOut_exclusion_rule (data : List Template) (i : Nat) (q : Nat) :
    (q ∈ looRemoved data i ↔ ∃ j, j < data.length ∧ i > (subjectPositions data j).length ∧
        q = (subjectPositions data j).getD (i % (subjectPositions data j).length) 0)
    ∧ (looRemoved data i).length =
        ((List.range data.length).filter
          (fun j => decide (i > (subjectPositions data j).length))).length :=
  ⟨mem_looRemoved, looRemoved_length data i⟩

/-- C4: the collected exclusion positions are removed descending and
deduplicated, so the surviving records are exactly those whose position is
not among the distinct excluded positions (`keepNot`), and removal of a list
with duplicates equals removal of its deduplication (idempotence — no error,
no removal of a record at another position). -/
theorem removal_dedup_descending (data : List Template) (removed : List Nat) :
    applyRemovals data removed = keepNot removed data ∧
      applyRemovals data removed.dedup = applyRemovals data removed := by
  refine ⟨applyRemovals_eq_keepNot data removed, ?_⟩
  rw [applyRemovals_eq_keepNot, applyRemovals_eq_keepNot]
  exact keepP_congr _ _ _ (fun k => decide_eq_decide.mpr (not_congr List.mem_dedup))

/-- C5: `store` writes the model count followed by each model's serialized
form in partition order, and `load` applied to `store`'s output (from any
prior ensemble no larger than the stored one, growing missing models via the
factory) reproduces an ensemble of the same length whose models are the
originals, so `project` results are unchanged for any probe record;
`hround` is the external model's own store/load contract (spec §6). -/
theorem store_load_roundtrip {B : Type} (mstore : Model → List B)
    (mload : Model → List (WireItem B) → Option (Model × List (WireItem B)))
    (hround : ∀ m m' rest, mload m' ((mstore m).map WireItem.byte ++ rest) = some (m, rest))
    (cv cv0 : CrossValidate) (hlen : cv0.transforms.length ≤ cv.transforms.length) :
    ∃ cv', CrossValidate.load mload cv0 (CrossValidate.store mstore cv) = some (cv', []) ∧
      cv'.transforms = cv.transforms ∧
      cv'.transforms.length = cv.transforms.length ∧
      ∀ (mp : Model → Template → Template) (src : Template),
        CrossValidate.project mp cv' src = CrossValidate.project mp cv src := by
  have hg : (grow cv0.description cv0.transforms cv.transforms.length).length
      = cv.transforms.length := by
    rw [grow_length]; omega
  have h := loadModels_roundtrip mstore mload hround cv.transforms
    (grow cv0.description cv0.transforms cv.transforms.length) [] hg
  rw [List.append_nil] at h
  refine ⟨{ cv0 with transforms := cv.transforms }, ?_, rfl, rfl, fun mp src => rfl⟩
  simp only [CrossValidate.store, CrossValidate.load, h]

/-- C5 witness: a two-model ensemble round-trips through a concrete one-item
wire serializer, starting from an empty ensemble. -/
theorem store_load_roundtrip_witness :
    ∃ cv', CrossValidate.load wireLoad ⟨"Identity", false, []⟩
        (CrossValidate.store wireStore
          ⟨"Identity", true, [Model.fresh "Identity", Model.trained "Identity" [tpl0]]⟩)
      = some (cv', []) ∧
      cv'.transforms = [Model.fresh "Identity", Model.trained "Identity" [tpl0]] ∧
      cv'.transforms.length
        = ([Model.fresh "Identity", Model.trained "Identity" [tpl0]] : List Model).length ∧
      ∀ (mp : Model → Template → Template) (src : Template),
        CrossValidate.project mp cv' src =
          CrossValidate.project mp
            ⟨"Identity", true, [Model.fresh "Identity", Model.trained "Identity" [tpl0]]⟩ src :=
  store_load_roundtrip wireStore wireLoad (fun m m' rest => rfl)
    ⟨"Identity", true, [Model.fresh "Identity", Model.trained "Identity" [tpl0]]⟩
    ⟨"Identity", false, []⟩ (by decide)

/-- C6: `project` reads the record's "Partition" attribute (default 0) and
delegates to exactly the model at that index: with a valid index the result
is that model's projection; with an out-of-range index the call fails
(`none`); and the result depends only on the model stored at that index
(two ensembles of equal length agreeing at the index project identically),
never on any other model.  A failing call returns only a result and cannot
modify the ensemble, which `project` takes immutably. -/
theorem project_partition_routing (mp : Model → Template → Template)
    (cv cv' : CrossValidate) (src : Template) :
    ((0 ≤ src.file.getInt "Partition" 0 ∧
        (src.file.getInt "Partition" 0).toNat < cv.transforms.length) →
      CrossValidate.project mp cv src =
        some (mp (cv.transforms.getD (src.file.getInt "Partition" 0).toNat dummyModel) src))
    ∧ (¬ (0 ≤ src.file.getInt "Partition" 0 ∧
        (src.file.getInt "Partition" 0).toNat < cv.transforms.length) →
      CrossValidate.project mp cv src = none)
    ∧ (cv.transforms.length = cv'.transforms.length →
      cv.transforms.getD (src.file.getInt "Partition" 0).toNat dummyModel =
        cv'.transforms.getD (src.file.getInt "Partition" 0).toNat dummyModel →
      CrossValidate.project mp cv src = CrossValidate.project mp cv' src) := by
  unfold CrossValidate.project
  refine ⟨fun h => by rw [if_pos h], fun h => by rw [if_neg h], fun hlen hgetD => ?_⟩
  simp only [hlen, hgetD]

/-- C6 witness: with a one-model ensemble, a partition-0 record routes to
model 0 and a partition-3 record fails. -/
theorem project_partition_routing_witness :
    CrossValidate.project (fun _ t => t) ⟨"Identity", false, [Model.fresh "Identity"]⟩ tpl0
        = some tpl0 ∧
      CrossValidate.project (fun _ t => t) ⟨"Identity", false, [Model.fresh "Identity"]⟩ tpl3
        = none := by
  constructor
  · exact (project_partition_routing (fun _ t => t) ⟨"Identity", false, [Model.fresh "Identity"]⟩
      ⟨"Identity", false, [Model.fresh "Identity"]⟩ tpl0).1 (by decide)
  · exact (project_partition_routing (fun _ t => t) ⟨"Identity", false, [Model.fresh "Identity"]⟩
      ⟨"Identity", false, [Model.fresh "Identity"]⟩ tpl3).2.1 (by decide)

/-- C7: the allowlist comparator rejects exactly when some configured key
with a non-empty allowed set has the first record's value empty or outside
the set; keys with an empty allowed set impose no constraint; otherwise it
accepts.  Concretely, with filter `Gender ↦ {M}`: `Gender="F"` and a missing
`Gender` are rejected, `Gender="M"` is accepted, and an empty filter list
accepts everything. -/
theorem filter_allowlist_gate (filters : List (String × List String)) (a b : Template) :
    (FilterDistance.compare filters a b = Score.reject ↔
      ∃ kv ∈ filters, kv.2 ≠ [] ∧
        (a.file.getString kv.1 "" = "" ∨ a.file.getString kv.1 "" ∉ kv.2))
    ∧ (FilterDistance.compare filters a b = Score.accept ↔
      ¬ ∃ kv ∈ filters, kv.2 ≠ [] ∧
        (a.file.getString kv.1 "" = "" ∨ a.file.getString kv.1 "" ∉ kv.2))
    ∧ FilterDistance.compare [("Gender", ["M"])] tGenderF b = Score.reject
    ∧ FilterDistance.compare [("Gender", ["M"])] tNoGender b = Score.reject
    ∧ FilterDistance.compare [("Gender", ["M"])] tGenderM b = Score.accept
    ∧ FilterDistance.compare [] a b = Score.accept := by
  refine ⟨filterCompare_reject_iff filters a b, ⟨?_, ?_⟩, rfl, rfl, rfl, rfl⟩
  · intro hacc hex
    have hrej := (filterCompare_reject_iff filters a b).mpr hex
    rw [hacc] at hrej
    exact absurd hrej (by simp)
  · intro hne
    rcases score_two_valued (FilterDistance.compare filters a b) with h | h
    · exact h
    · exact absurd ((filterCompare_reject_iff filters a b).mp h) hne

/-- C8: the metadata-match comparator accepts exactly when every configured
key passes: a key with an empty value on either side (after the
point-to-string fallback for the query) is skipped; a query value parsing as
a range `(x,y)` passes exactly when the target value is the decimal
rendering of some integer in `[x,y]`; otherwise exact string equality
decides; the comparator rejects as soon as one key fails.  Concretely,
target "30" against query range `(20,40)` is accepted and against `(41,50)`
is rejected. -/
theorem metadata_range_gate (filters : List String) (a b : Template) :
    (MetadataDistance.compare filters a b = Score.accept ↔
      ∀ key ∈ filters, metadataKeyPasses a b key)
    ∧ (MetadataDistance.compare filters a b = Score.reject ↔
      ¬ ∀ key ∈ filters, metadataKeyPasses a b key)
    ∧ MetadataDistance.compare ["Age"] tAge30 tAgeRange20to40 = Score.accept
    ∧ MetadataDistance.compare ["Age"] tAge30 tAgeRange41to50 = Score.reject := by
  refine ⟨metadataCompare_accept_iff filters a b, ⟨?_, ?_⟩, by decide, by decide⟩
  · intro hrej hall
    have hacc := (metadataCompare_accept_iff filters a b).mpr hall
    rw [hrej] at hacc
    exact absurd hacc (by simp)
  · intro hne
    rcases score_two_valued (MetadataDistance.compare filters a b) with h | h
    · exact absurd ((metadataCompare_accept_iff filters a b).mp h) hne
    · exact h

/-- C9: in leave-one-out mode, whenever `i` does not exceed any subject
group's size — in particular whenever `i ≤ 1`, since every record belongs to
its own subject group — the exclusion list for partition `i` is empty and
model `i` is trained on the entire dataset. -/
theorem leaveOneOut_small_partition_trains_on_all (cv : CrossValidate)
    (data : List Template) (i : Nat)
    (hloo : cv.leaveOneOut = true) (hn : 2 ≤ numPartitions data)
    (hi : i < numPartitions data)
    (hS : i ≤ 1 ∨ ∀ j, j < data.length → i ≤ (subjectPositions data j).length) :
    ∃ cv', cv.train data = some cv' ∧
      cv'.transforms.getD i dummyModel =
        Model.train ((grow cv.description cv.transforms (numPartitions data)).getD i dummyModel)
          data := by
  have hall : ∀ j, j < data.length → i ≤ (subjectPositions data j).length := by
    rcases hS with h1 | h2
    · intro j hj
      have := subjectPositions_length_pos hj
      omega
    · exact h2
  obtain ⟨cv', h1, h2⟩ := train_ge2 cv data i hn hi
  rw [hloo, trainedDataFor_true_of_small hall] at h2
  exact ⟨cv', h1, h2⟩

/-- C9 witness: two records with distinct subjects and partitions 0, 1 in
leave-one-out mode; model 1 trains on the entire dataset. -/
theorem leaveOneOut_small_partition_trains_on_all_witness :
    ∃ cv', CrossValidate.train ⟨"Identity", true, []⟩ [tpl0, tpl1] = some cv' ∧
      cv'.transforms.getD 1 dummyModel =
        Model.train ((grow "Identity" [] (numPartitions [tpl0, tpl1])).getD 1 dummyModel)
          [tpl0, tpl1] :=
  leaveOneOut_small_partition_trains_on_all ⟨"Identity", true, []⟩ [tpl0, tpl1] 1 rfl
    (by decide) (by decide) (Or.inl (by decide))

/-- C10: the allowlist comparator never reads its second argument — its
result is the same for every query record — and is determined solely by the
first record's values at the configured keys and the filter configuration:
records agreeing on those values compare identically. -/
theorem filter_ignores_query (filters : List (String × List String))
    (a a' b b' : Template) :
    FilterDistance.compare filters a b = FilterDistance.compare filters a b' ∧
    ((∀ kv ∈ filters, a.file.getString kv.1 "" = a'.file.getString kv.1 "") →
      FilterDistance.compare filters a b = FilterDistance.compare filters a' b') :=
  ⟨filterCompare_b_irrelevant filters a b b', filterCompare_a_values filters a a' b b'⟩

/-- C10 witness: two records with the same "Gender" but different other
attributes compare identically against different query records. -/
theorem filter_ignores_query_witness :
    FilterDistance.compare [("Gender", ["M"])] tGenderM tpl0 =
        FilterDistance.compare [("Gender", ["M"])] tGenderM tpl1 ∧
      FilterDistance.compare [("Gender", ["M"])] tGenderM tpl0 =
        FilterDistance.compare [("Gender", ["M"])] tGenderMplus tpl1 := by
  have h := filter_ignores_query [("Gender", ["M"])] tGenderM tGenderMplus tpl0 tpl1
  exact ⟨h.1, h.2 (fun kv hkv => by
    rw [List.mem_singleton] at hkv
    subst hkv
    rfl)⟩

end Validate
